import Mathlib

set_option maxRecDepth 8192

/-!
Verification of the caption-timing and subtitle-rendering pipeline of
`server.mjs` (audio2video): time codec, SRT serializer, uniform-fallback
cue allocator, style translator, composition planner and request signer.
The JavaScript functions are shallowly embedded as executable Lean
definitions; strings are Lean `String`, and JS numbers are rationals:
exact `Nat`/`Int`/`Rat` where the program only performs
exactly-representable arithmetic, and explicit IEEE-754 binary64
rounding (`roundB64`) where the double rounding is observable (the cue
allocator's `durationMs / lines.length` and `index * avgDuration`).
-/

namespace Audio2Video

/-- JS `s.trim()`: remove leading and trailing whitespace. -/
def jsTrim (s : String) : String :=
  String.mk ((s.data.dropWhile Char.isWhitespace).reverse.dropWhile
    Char.isWhitespace).reverse

/-- Split a character list at every occurrence of `sep` (keeping empty
segments, as JS `split` does). -/
def splitOnChar (sep : Char) : List Char → List (List Char)
  | [] => [[]]
  | c :: rest =>
    match splitOnChar sep rest with
    | [] => [[]]
    | seg :: segs =>
      if c = sep then [] :: seg :: segs else (c :: seg) :: segs

/-- JS `s.split(sep)` for a one-character separator. -/
def jsSplit (s : String) (sep : Char) : List String :=
  (splitOnChar sep s.data).map String.mk

/-- JS `s.padStart(n, c)`: left-pad with `c` up to length `n`
(no truncation when `s` is already long enough). -/
def padStart (s : String) (n : Nat) (c : Char) : String :=
  String.mk (List.replicate (n - s.length) c) ++ s

/-- Function `msToSrtTime(ms)` from `server.mjs` lines 167-175: clamp negatives to
0, decompose by floor division into hours / minutes / seconds /
milliseconds and render `HH:MM:SS,mmm` with `padStart`. -/
def msToSrtTime (ms : Int) : String :=
  let msc : Nat := (if ms < 0 then 0 else ms).toNat
  let hours := msc / 3600000
  let minutes := (msc % 3600000) / 60000
  let seconds := (msc % 60000) / 1000
  let milliseconds := msc % 1000
  padStart (toString hours) 2 '0' ++ ":" ++ padStart (toString minutes) 2 '0'
    ++ ":" ++ padStart (toString seconds) 2 '0' ++ ","
    ++ padStart (toString milliseconds) 3 '0'

/-- Recognizer utterance / synthesized cue: start and end times in
milliseconds plus the caption text. -/
structure Utterance where
  start_time : Int
  end_time : Int
  text : String
deriving DecidableEq, Repr

/-- One emitted SRT block exactly as the loop body of `generateSRT`
appends it: index line, `start --> end` line, trimmed text, blank line. -/
def srtBlock (index : Nat) (u : Utterance) : String :=
  toString index ++ "\n" ++ msToSrtTime u.start_time ++ " --> "
    ++ msToSrtTime u.end_time ++ "\n" ++ jsTrim u.text ++ "\n\n"

/-- The accumulator loop of `generateSRT` (`server.mjs` lines 147-165):
walk the utterances, append a block and bump the index only when the
trimmed text is non-empty. -/
def srtLoop : List Utterance → String → Nat → String
  | [], srtContent, _ => srtContent
  | u :: rest, srtContent, index =>
    if jsTrim u.text ≠ "" then
      srtLoop rest (srtContent ++ srtBlock index u) (index + 1)
    else
      srtLoop rest srtContent index

/-- Function `generateSRT(utterances)`: serialize to SRT, starting the sequence
numbers at 1 with an empty accumulator. -/
def generateSRT (utterances : List Utterance) : String :=
  srtLoop utterances "" 1

/-- Specification-side rendering of blocks with contiguous numbering
starting at `i` (used to state what `generateSRT` produces). -/
def numberBlocks : Nat → List Utterance → List String
  | _, [] => []
  | i, u :: rest => srtBlock i u :: numberBlocks (i + 1) rest

/-- Non-accumulator form of the serializer body. -/
def srtBody : List Utterance → Nat → String
  | [], _ => ""
  | u :: rest, i =>
    if jsTrim u.text ≠ "" then srtBlock i u ++ srtBody rest (i + 1)
    else srtBody rest i

/-- Floor of the base-2 logarithm of a positive rational (meaningful
only for `0 < q`). -/
def floorLog2 (q : ℚ) : ℤ :=
  let a := q.num.toNat
  let b := q.den
  let e0 : ℤ := (Nat.log2 a : ℤ) - (Nat.log2 b : ℤ)
  if (2 : ℚ) ^ e0 ≤ q then e0 else e0 - 1

/-- Round a positive rational to the nearest binary64 value, ties to
even: scale into `[2^52, 2^53)`, round the 53-bit significand, scale
back.  Valid on the normal range of binary64 (no subnormal or overflow
handling), which covers every value this program can compute. -/
def roundB64pos (x : ℚ) : ℚ :=
  let e := floorLog2 x
  let scale : ℚ := 2 ^ (e - 52)
  let m : ℚ := x / scale
  let mfl : ℤ := ⌊m⌋
  let frac : ℚ := m - (mfl : ℚ)
  let mr : ℤ :=
    if frac < 1 / 2 then mfl
    else if 1 / 2 < frac then mfl + 1
    else if mfl % 2 = 0 then mfl else mfl + 1
  (mr : ℚ) * scale

/-- IEEE-754 binary64 round-to-nearest-even, as the JS number type
rounds every arithmetic result. -/
def roundB64 (x : ℚ) : ℚ :=
  if x = 0 then 0
  else if 0 < x then roundB64pos x
  else - roundB64pos (-x)

/-- JS `a / b`: exact quotient, then binary64 rounding. -/
def jsDiv (a b : ℚ) : ℚ := roundB64 (a / b)

/-- JS `a * b`: exact product, then binary64 rounding. -/
def jsMul (a b : ℚ) : ℚ := roundB64 (a * b)

/-- The uniform-fallback cue allocation of `/api/align-subtitle`
(`server.mjs` lines 327-334), with the JS double arithmetic modelled by
`jsDiv`/`jsMul`: `avgDuration = durationMs / lines.length` is a rounded
binary64 quotient, line `i` gets `start = ⌊i ⊗ avg⌋` and
`end = ⌊(i+1) ⊗ avg⌋` where `⊗` is binary64 multiplication (the integer
index is exact, `Math.floor` on a double is exact), and trimmed text. -/
def allocUtterances (durationMs : ℚ) (lines : List String) : List Utterance :=
  let avgDuration := jsDiv durationMs (lines.length : ℚ)
  lines.enum.map fun p =>
    { start_time := ⌊jsMul (p.1 : ℚ) avgDuration⌋
      end_time := ⌊jsMul ((p.1 : ℚ) + 1) avgDuration⌋
      text := jsTrim p.2 }

/-- Outcome of the `/api/align-subtitle` handler. -/
inductive AlignResult where
  | errAudioMissing : AlignResult
  | errEmptyText : AlignResult
  | ok : String → ℚ → Nat → AlignResult
deriving DecidableEq

/-- Side effects the `/api/align-subtitle` handler performs: whether the
`ffprobe` duration probe ran and whether the SRT file was written. -/
structure AlignEffects where
  probeRan : Bool
  srtWritten : Bool
deriving DecidableEq

/-- The `/api/align-subtitle` handler (`server.mjs` lines 307-352) with
its two external effects made explicit: check the audio file, split the
subtitle text into non-empty trimmed lines, reject zero lines, otherwise
probe the duration, allocate uniform cues and write the SRT. -/
def alignSubtitleHandler (audioExists : Bool) (subtitleText : String)
    (probedDurationSec : ℚ) : AlignResult × AlignEffects :=
  if audioExists = false then
    (.errAudioMissing, ⟨false, false⟩)
  else
    let lines := (jsSplit subtitleText '\n').filter (fun line => jsTrim line ≠ "")
    if lines.length = 0 then
      (.errEmptyText, ⟨false, false⟩)
    else
      let durationMs := jsMul probedDurationSec 1000
      let utterances := allocUtterances durationMs lines
      let srtContent := generateSRT utterances
      (.ok srtContent durationMs lines.length, ⟨true, true⟩)

/-- JS `String.prototype.startsWith(p)`: the code units of `p` are a
prefix of the code units of the receiver. -/
def jsStartsWith (s p : String) : Bool :=
  p.data.isPrefixOf s.data

/-- JS `s.replace('#', '')`: delete the first occurrence of `'#'`. -/
def replaceFirstHash : List Char → List Char
  | [] => []
  | c :: rest => if c = '#' then rest else c :: replaceFirstHash rest

/-- JS `toUpperCase` restricted to the alphabet the program feeds it
(ASCII): uppercase every character. -/
def jsToUpperCase (s : String) : String :=
  String.mk (s.data.map Char.toUpper)

/-- Function `cssToAssColor` from `server.mjs` lines 236-243: pass `&H...` inputs
through, otherwise strip the `#`, slice R/G/B byte pairs and reassemble
as `&H00BBGGRR` uppercased. -/
def cssToAssColor (cssColor : String) : String :=
  if jsStartsWith cssColor "&H" then cssColor
  else
    let hex := replaceFirstHash cssColor.data
    let r := hex.take 2
    let g := (hex.drop 2).take 2
    let b := (hex.drop 4).take 2
    jsToUpperCase (String.mk ("&H00".data ++ b ++ g ++ r))

/-- Frame size selection (`server.mjs` line 260). -/
def videoSize (aspectRatio : String) : String :=
  if aspectRatio = "9:16" then "1080:1920" else "1920:1080"

/-- Vertical margin selection (`server.mjs` line 261). -/
def marginV (aspectRatio : String) : Nat :=
  if aspectRatio = "9:16" then 60 else 40

/-- JS `a || b` on strings: `b` when `a` is absent or empty (falsy). -/
def jsOr (a : Option String) (b : String) : String :=
  match a with
  | some s => if s = "" then b else s
  | none => b

/-- The `subtitleStyle` request field: all entries optional. -/
structure SubtitleStyle where
  fontSize : Option String
  fontColor : Option String
  outlineColor : Option String
  outlineWidth : Option String

/-- The `force_style` string built on `server.mjs` line 267. -/
def styleStr (fontSize fontColor outlineColor outlineWidth : String)
    (mV : Nat) : String :=
  "FontName=PingFang SC,FontSize=" ++ fontSize ++ ",PrimaryColour="
    ++ fontColor ++ ",OutlineColour=" ++ outlineColor ++ ",Outline="
    ++ outlineWidth ++ ",Shadow=0,Alignment=2,MarginV=" ++ toString mV

/-- The ffmpeg command of `server.mjs` line 268 (subtitle branch),
interpolating the derived strings exactly as the template literal does. -/
def commandWithSubs (imageFullPath audioFullPath vs srtFullPath style
    outputPath : String) : String :=
  "ffmpeg -loop 1 -i \"" ++ imageFullPath ++ "\" -i \"" ++ audioFullPath
    ++ "\" -vf \"scale=" ++ vs ++ ":force_original_aspect_ratio=decrease,pad="
    ++ vs ++ ":(ow-iw)/2:(oh-ih)/2,subtitles=\x27" ++ srtFullPath
    ++ "\x27:force_style=\x27" ++ style
    ++ "\x27\" -c:v libx264 -tune stillimage -c:a aac -b:a 192k -pix_fmt yuv420p -shortest -y \""
    ++ outputPath ++ "\""

/-- The ffmpeg command of `server.mjs` line 270 (no-subtitle branch). -/
def commandNoSubs (imageFullPath audioFullPath vs outputPath : String) :
    String :=
  "ffmpeg -loop 1 -i \"" ++ imageFullPath ++ "\" -i \"" ++ audioFullPath
    ++ "\" -vf \"scale=" ++ vs ++ ":force_original_aspect_ratio=decrease,pad="
    ++ vs
    ++ ":(ow-iw)/2:(oh-ih)/2\" -c:v libx264 -tune stillimage -c:a aac -b:a 192k -pix_fmt yuv420p -shortest -y \""
    ++ outputPath ++ "\""

/-- The composition planner of `/api/generate-video` (`server.mjs` lines
236-271): resolve style defaults, translate colors, pick the
aspect-matched geometry and build one of the two command strings.  Paths
are taken already joined with the server directory (the `path.join`
calls); `srtFullPath = some s` with `s ≠ ""` models a truthy `srtPath`. -/
def planComposition (imageFullPath audioFullPath outputPath
    aspectRatio : String) (withSubtitles : Bool)
    (srtFullPath : Option String) (style : SubtitleStyle) : String :=
  let fontSize := jsOr style.fontSize "24"
  let fontColor := cssToAssColor (jsOr style.fontColor "#FFFFFF")
  let outlineColor := cssToAssColor (jsOr style.outlineColor "#000000")
  let outlineWidth := jsOr style.outlineWidth "2"
  let vs := videoSize aspectRatio
  let mV := marginV aspectRatio
  match withSubtitles, srtFullPath with
  | true, some srt =>
    if srt = "" then commandNoSubs imageFullPath audioFullPath vs outputPath
    else
      commandWithSubs imageFullPath audioFullPath vs srt
        (styleStr fontSize fontColor outlineColor outlineWidth mV) outputPath
  | _, _ => commandNoSubs imageFullPath audioFullPath vs outputPath

/-- The last path segment: Node `path.posix.basename(p)` — trailing
slashes are ignored, then everything after the last `'/'` is kept. -/
def lastSegment (cs : List Char) : List Char :=
  ((cs.reverse.dropWhile (fun c => c = '/')).takeWhile (fun c => c ≠ '/')).reverse

/-- Node `path.posix.basename(p)`. -/
def posixBasename (p : String) : String :=
  String.mk (lastSegment p.data)

/-- Node `path.posix.extname(p)` on the last segment: the suffix from the
last dot, empty when there is no dot, the dot is the segment's first
character, or the segment is exactly `".."`. -/
def extSegment (s : List Char) : List Char :=
  let j := (s.reverse.takeWhile (fun c => c ≠ '.')).length
  if j = s.length then []
  else if s.length - j - 1 = 0 then []
  else if s = ['.', '.'] then []
  else s.drop (s.length - j - 1)

/-- Node `path.posix.extname(p)`. -/
def posixExtname (p : String) : String :=
  String.mk (extSegment (lastSegment p.data))

/-- Node `path.posix.basename(p, ext)`: the basename with a matching
non-empty suffix `ext` stripped (never stripping the whole basename). -/
def posixBasenameExt (p ext : String) : String :=
  if 0 < ext.length ∧ ext.length ≤ p.length then
    if p = ext then ""
    else
      let b := posixBasename p
      if b.endsWith ext ∧ b ≠ ext then
        String.mk (b.data.take (b.data.length - ext.data.length))
      else b
  else posixBasename p

/-- The output base name of `/api/generate-video` (`server.mjs` lines
254-256): the upload's basename without its extension when
`originalFilename` is truthy, otherwise `video-` plus the current
timestamp. -/
def videoBaseName (originalFilename : Option String) (now : Nat) : String :=
  match originalFilename with
  | some f =>
    if f = "" then "video-" ++ toString now
    else posixBasenameExt f (posixExtname f)
  | none => "video-" ++ toString now

/-- The output file name of `/api/generate-video` (`server.mjs` line
257): branded prefix, base name, `.mp4`. -/
def outputName (originalFilename : Option String) (now : Nat) : String :=
  "pimsleur 日常英语对话-" ++ videoBaseName originalFilename now ++ ".mp4"

/-- Hex digit used by Node `Buffer.toString('hex')` (lowercase). -/
def hexDigitChar (n : Nat) : Char :=
  if n < 10 then Char.ofNat ('0'.toNat + n) else Char.ofNat ('a'.toNat + (n - 10))

/-- Node `randomBytes(k).toString('hex')`: two lowercase hex digits per
byte, in order. -/
def bytesToHex (bs : List Nat) : String :=
  String.mk ((bs.map fun b => [hexDigitChar (b / 16), hexDigitChar (b % 16)]).flatten)

/-- The four headers returned by `generateAuthHeaders`. -/
structure AuthHeaders where
  xAppId : String
  xTimestamp : String
  xNonce : String
  authorization : String
deriving DecidableEq

/-- Function `generateAuthHeaders` from `server.mjs` lines 52-64.  The ambient
inputs are explicit: `nowMs` is `Date.now()`, `nonceBytes` the 16 random
bytes, and `hmacSha256Hex key msg` abstracts the Node crypto library call
`createHmac('sha256', key).update(msg).digest('hex')`. -/
def generateAuthHeaders (hmacSha256Hex : String → String → String)
    (nowMs : Nat) (nonceBytes : List Nat)
    (method apiPath appId appSecret : String) : AuthHeaders :=
  let timestamp := nowMs / 1000
  let nonce := bytesToHex nonceBytes
  let signatureString := method ++ "\n" ++ apiPath ++ "\n"
    ++ toString timestamp ++ "\n" ++ nonce ++ "\n" ++ appId
  let signature := hmacSha256Hex appSecret signatureString
  { xAppId := appId
    xTimestamp := toString timestamp
    xNonce := nonce
    authorization := "HMAC-SHA256 " ++ signature }

/-- Concatenation of a list of strings in order. -/
def concatStrings : List String → String
  | [] => ""
  | s :: rest => s ++ concatStrings rest

lemma srtLoop_append (l : List Utterance) : ∀ (acc : String) (i : Nat),
    srtLoop l acc i = acc ++ srtBody l i := by
  induction l with
  | nil => intro acc i; simp [srtLoop, srtBody]
  | cons u rest ih =>
    intro acc i
    by_cases h : jsTrim u.text = ""
    · simp [srtLoop, srtBody, h, ih]
    · simp [srtLoop, srtBody, h, ih, String.append_assoc]

lemma srtBody_eq (l : List Utterance) : ∀ i : Nat,
    srtBody l i
      = concatStrings (numberBlocks i (l.filter (fun u => jsTrim u.text ≠ ""))) := by
  induction l with
  | nil => intro i; rfl
  | cons u rest ih =>
    intro i
    by_cases h : jsTrim u.text = ""
    · simp [srtBody, h, List.filter_cons, ih]
    · simp [srtBody, h, List.filter_cons, ih, numberBlocks, concatStrings]

/-- C3: the serializer emits one block per utterance with non-empty
trimmed text — sequence number, `start --> end` line, trimmed text,
blank-line separator (the shape of `srtBlock`) — skips empty-trimmed
utterances, and numbers the emitted blocks contiguously starting at 1. -/
theorem generateSRT_spec (utterances : List Utterance) :
    generateSRT utterances
      = concatStrings
          (numberBlocks 1 (utterances.filter (fun u => jsTrim u.text ≠ ""))) := by
  rw [generateSRT, srtLoop_append, srtBody_eq, String.empty_append]

lemma srtBody_blank (l : List Utterance) (h : ∀ u ∈ l, jsTrim u.text = "") :
    ∀ i : Nat, srtBody l i = "" := by
  induction l with
  | nil => intro i; rfl
  | cons u rest ih =>
    intro i
    have hu := h u (by simp)
    simp [srtBody, hu, ih (fun v hv => h v (by simp [hv]))]

/-- C10: when every utterance's trimmed text is empty (in particular for
the empty sequence), the serializer returns the empty string, emitting
no blocks and raising no error. -/
theorem generateSRT_all_blank (utterances : List Utterance)
    (h : ∀ u ∈ utterances, jsTrim u.text = "") : generateSRT utterances = "" := by
  rw [generateSRT, srtLoop_append, srtBody_blank utterances h, String.append_empty]

/-- Witness for C10 at a concrete all-blank utterance list. -/
theorem generateSRT_all_blank_witness :
    generateSRT [⟨0, 1000, "  "⟩, ⟨1000, 2000, ""⟩] = "" :=
  generateSRT_all_blank [⟨0, 1000, "  "⟩, ⟨1000, 2000, ""⟩] (by decide)

/-- C4: the time codec clamps negative input to 0, decomposes the
milliseconds by floor division with moduli 3600000 / 60000 / 1000 into
hours, minutes, seconds, milliseconds that reconstruct the input, and
renders them `HH:MM:SS,mmm` zero-padded to 2/2/2/3 digits; in particular
`msToSrtTime 3661001 = "01:01:01,001"`. -/
theorem msToSrtTime_spec :
    (∀ ms : Int, ms < 0 → msToSrtTime ms = msToSrtTime 0)
    ∧ msToSrtTime 3661001 = "01:01:01,001"
    ∧ (∀ ms : Int, 0 ≤ ms → ∃ h m s milli : Nat,
        (h : Int) * 3600000 + m * 60000 + s * 1000 + milli = ms
        ∧ m < 60 ∧ s < 60 ∧ milli < 1000
        ∧ h = ms.toNat / 3600000 ∧ m = ms.toNat % 3600000 / 60000
        ∧ s = ms.toNat % 60000 / 1000 ∧ milli = ms.toNat % 1000
        ∧ msToSrtTime ms =
            padStart (toString h) 2 '0' ++ ":" ++ padStart (toString m) 2 '0'
              ++ ":" ++ padStart (toString s) 2 '0' ++ ","
              ++ padStart (toString milli) 3 '0') := by
  refine ⟨?_, by rfl, ?_⟩
  · intro ms h
    simp [msToSrtTime, h]
  · intro ms h0
    refine ⟨ms.toNat / 3600000, ms.toNat % 3600000 / 60000,
      ms.toNat % 60000 / 1000, ms.toNat % 1000,
      by omega, by omega, by omega, by omega, rfl, rfl, rfl, rfl, ?_⟩
    simp only [msToSrtTime]
    rw [if_neg (not_lt.2 h0)]

/-- Witness for C4: the negative-clamp case at `-7` and the
decomposition case at `3661001`. -/
theorem msToSrtTime_spec_witness :
    msToSrtTime (-7) = msToSrtTime 0
    ∧ (∃ h m s milli : Nat,
        (h : Int) * 3600000 + m * 60000 + s * 1000 + milli = 3661001
        ∧ m < 60 ∧ s < 60 ∧ milli < 1000
        ∧ h = (3661001 : Int).toNat / 3600000
        ∧ m = (3661001 : Int).toNat % 3600000 / 60000
        ∧ s = (3661001 : Int).toNat % 60000 / 1000
        ∧ milli = (3661001 : Int).toNat % 1000
        ∧ msToSrtTime 3661001 =
            padStart (toString h) 2 '0' ++ ":" ++ padStart (toString m) 2 '0'
              ++ ":" ++ padStart (toString s) 2 '0' ++ ","
              ++ padStart (toString milli) 3 '0') :=
  ⟨msToSrtTime_spec.1 (-7) (by decide), msToSrtTime_spec.2.2 3661001 (by decide)⟩

/-- C6: aspect ratio `"9:16"` yields frame `1080:1920` with vertical
margin 60, `"16:9"` yields `1920:1080` with margin 40, and for every
aspect-ratio string the produced frame/margin pair is one of those two —
dimensions and margin are never mixed across profiles. -/
theorem aspectGeometry_pairing :
    (videoSize "9:16" = "1080:1920" ∧ marginV "9:16" = 60)
    ∧ (videoSize "16:9" = "1920:1080" ∧ marginV "16:9" = 40)
    ∧ (∀ a : String,
        (videoSize a = "1080:1920" ∧ marginV a = 60)
        ∨ (videoSize a = "1920:1080" ∧ marginV a = 40)) := by
  refine ⟨⟨rfl, rfl⟩, ⟨by decide, by decide⟩, ?_⟩
  intro a
  by_cases h : a = "9:16"
  · exact Or.inl ⟨by simp [videoSize, h], by simp [marginV, h]⟩
  · exact Or.inr ⟨by simp [videoSize, h], by simp [marginV, h]⟩

lemma jsStartsWith_ampH (l : List Char) :
    jsStartsWith (String.mk ('&' :: 'H' :: l)) "&H" = true := by
  have hd : ("&H" : String).data = ['&', 'H'] := rfl
  simp [jsStartsWith, hd, List.isPrefixOf]

lemma cssToAssColor_else_data (s : String) (h : jsStartsWith s "&H" = false) :
    ∃ l : List Char,
      cssToAssColor s = String.mk ('&' :: 'H' :: '0' :: '0' :: l) := by
  have e0 : ("&H00" : String).data = ['&', 'H', '0', '0'] := rfl
  have e1 : Char.toUpper '&' = '&' := by decide
  have e2 : Char.toUpper 'H' = 'H' := by decide
  have e3 : Char.toUpper '0' = '0' := by decide
  refine ⟨(((replaceFirstHash s.data).drop 4).take 2
      ++ ((replaceFirstHash s.data).drop 2).take 2
      ++ (replaceFirstHash s.data).take 2).map Char.toUpper, ?_⟩
  simp [cssToAssColor, h, jsToUpperCase, e0, e1, e2, e3]

/-- C5: the color translator passes native `&H`-prefixed tokens through
unchanged, turns a `#RRGGBB` input into `&H00` followed by the
blue/green/red byte pairs uppercased (so `cssToAssColor "#FF00CC"
= "&H00CC00FF"`), and is idempotent on every string input. -/
theorem cssToAssColor_spec :
    (∀ s : String, jsStartsWith s "&H" = true → cssToAssColor s = s)
    ∧ (∀ r g b : String, r.length = 2 → g.length = 2 → b.length = 2 →
        cssToAssColor ("#" ++ r ++ g ++ b)
          = jsToUpperCase ("&H00" ++ b ++ g ++ r))
    ∧ cssToAssColor "#FF00CC" = "&H00CC00FF"
    ∧ (∀ s : String, cssToAssColor (cssToAssColor s) = cssToAssColor s) := by
  refine ⟨?_, ?_, by decide, ?_⟩
  · intro s h
    simp [cssToAssColor, h]
  · intro r g b hr hg hb
    have hr' : r.data.length = 2 := hr
    have hg' : g.data.length = 2 := hg
    have hb' : b.data.length = 2 := hb
    have hpound : ("#" : String).data = ['#'] := rfl
    have hdata : ("#" ++ r ++ g ++ b).data
        = '#' :: (r.data ++ (g.data ++ b.data)) := by
      simp [String.data_append, hpound]
    have hsw : jsStartsWith ("#" ++ r ++ g ++ b) "&H" = false := by
      have hd : ("&H" : String).data = ['&', 'H'] := rfl
      have hne : ('&' == '#') = false := by decide
      simp [jsStartsWith, hd, hdata, List.isPrefixOf, hne]
    have hrep : replaceFirstHash (("#" ++ r ++ g ++ b).data)
        = r.data ++ (g.data ++ b.data) := by
      rw [hdata]; simp [replaceFirstHash]
    have htake : (r.data ++ (g.data ++ b.data)).take 2 = r.data :=
      List.take_left' hr'
    have hdrop2 : (r.data ++ (g.data ++ b.data)).drop 2 = g.data ++ b.data :=
      List.drop_left' hr'
    have hg2 : ((r.data ++ (g.data ++ b.data)).drop 2).take 2 = g.data := by
      rw [hdrop2]; exact List.take_left' hg'
    have hdrop4 : (r.data ++ (g.data ++ b.data)).drop 4 = b.data := by
      have : r.data ++ (g.data ++ b.data) = (r.data ++ g.data) ++ b.data := by
        simp [List.append_assoc]
      rw [this]
      exact List.drop_left' (by simp [hr', hg'])
    have hb2 : ((r.data ++ (g.data ++ b.data)).drop 4).take 2 = b.data := by
      rw [hdrop4, ← hb', List.take_length]
    simp only [cssToAssColor, hsw, Bool.false_eq_true, if_false, hrep,
      htake, hg2, hb2]
    exact congrArg jsToUpperCase (String.ext (by simp [String.data_append]))
  · intro s
    by_cases h : jsStartsWith s "&H" = true
    · simp [cssToAssColor, h]
    · have h' : jsStartsWith s "&H" = false := by
        cases hx : jsStartsWith s "&H" <;> simp_all
      obtain ⟨l, hl⟩ := cssToAssColor_else_data s h'
      rw [hl]
      have := jsStartsWith_ampH ('0' :: '0' :: l)
      simp [cssToAssColor, this]

/-- Witness for C5: passthrough at `"&H00CC00FF"` and the general
`#RRGGBB` case at `r = "FF"`, `g = "00"`, `b = "CC"`. -/
theorem cssToAssColor_spec_witness :
    cssToAssColor "&H00CC00FF" = "&H00CC00FF"
    ∧ cssToAssColor ("#" ++ "FF" ++ "00" ++ "CC")
        = jsToUpperCase ("&H00" ++ "CC" ++ "00" ++ "FF") :=
  ⟨cssToAssColor_spec.1 "&H00CC00FF" (by decide),
    cssToAssColor_spec.2.1 "FF" "00" "CC" (by decide) (by decide) (by decide)⟩

/-- C7: when the subtitle text contains no non-empty trimmed line, the
alignment handler reports the empty-text validation error (or the
audio-missing validation error when the audio is absent), never a
success, and performs no partial work: the duration probe does not run
and no subtitle file is written. -/
theorem alignSubtitle_zero_lines (subtitleText : String) (d : ℚ)
    (h : ((jsSplit subtitleText '\n').filter
      (fun line => jsTrim line ≠ "")).length = 0) :
    alignSubtitleHandler true subtitleText d = (.errEmptyText, ⟨false, false⟩)
    ∧ ∀ audioExists : Bool,
        (alignSubtitleHandler audioExists subtitleText d).2.probeRan = false
        ∧ (alignSubtitleHandler audioExists subtitleText d).2.srtWritten = false
        ∧ ∀ (srt : String) (dur : ℚ) (n : Nat),
            (alignSubtitleHandler audioExists subtitleText d).1 ≠ .ok srt dur n := by
  have hfil : (jsSplit subtitleText '\n').filter (fun line => jsTrim line ≠ "") = [] :=
    List.length_eq_zero.1 h
  constructor
  · unfold alignSubtitleHandler
    rw [if_neg (by simp)]
    simp only [hfil]
    simp
  · intro audioExists
    cases audioExists
    · simp [alignSubtitleHandler]
    · unfold alignSubtitleHandler
      rw [if_neg (by simp)]
      simp only [hfil]
      simp

/-- Witness for C7 at whitespace-only subtitle text. -/
theorem alignSubtitle_zero_lines_witness :
    alignSubtitleHandler true " \n " 0 = (.errEmptyText, ⟨false, false⟩) :=
  (alignSubtitle_zero_lines " \n " 0 (by decide)).1

lemma hexPairs_length (bs : List Nat) :
    ((bs.map fun b => [hexDigitChar (b / 16), hexDigitChar (b % 16)]).flatten).length
      = 2 * bs.length := by
  induction bs with
  | nil => rfl
  | cons b rest ih => simp [ih]; omega

lemma bytesToHex_length (bs : List Nat) : (bytesToHex bs).length = 2 * bs.length :=
  hexPairs_length bs

lemma hexDigitChar_mem (n : Nat) (h : n < 16) :
    hexDigitChar n ∈ ("0123456789abcdef" : String).data := by
  have hall : ∀ m : Fin 16, hexDigitChar (m : Nat) ∈ ("0123456789abcdef" : String).data := by
    decide
  exact hall ⟨n, h⟩

lemma bytesToHex_chars (bs : List Nat) (hb : ∀ b ∈ bs, b < 256) :
    ∀ c ∈ (bytesToHex bs).data, c ∈ ("0123456789abcdef" : String).data := by
  induction bs with
  | nil => intro c hc; simp [bytesToHex] at hc
  | cons b rest ih =>
    intro c hc
    have hb1 : b < 256 := hb b (by simp)
    simp only [bytesToHex, List.map_cons, List.flatten_cons] at hc
    rcases List.mem_append.1 hc with hc1 | hc2
    · simp only [List.mem_cons, List.not_mem_nil, or_false] at hc1
      rcases hc1 with h1 | h1
      · subst h1; exact hexDigitChar_mem _ (by omega)
      · subst h1; exact hexDigitChar_mem _ (by omega)
    · exact ih (fun x hx => hb x (by simp [hx])) c hc2

/-- C8: the request signer returns headers carrying the app id, the
unix-second timestamp, and a 32-hex-character nonce, and its signature —
carried in the `Authorization` header after the scheme label — is the
hex HMAC-SHA256, keyed with the app secret, of method, API path,
timestamp, nonce and app id joined by newlines. -/
theorem generateAuthHeaders_spec (hmacSha256Hex : String → String → String)
    (nowMs : Nat) (nonceBytes : List Nat)
    (method apiPath appId appSecret : String)
    (hlen : nonceBytes.length = 16) (hbytes : ∀ b ∈ nonceBytes, b < 256) :
    (generateAuthHeaders hmacSha256Hex nowMs nonceBytes method apiPath appId appSecret).xAppId
        = appId
    ∧ (generateAuthHeaders hmacSha256Hex nowMs nonceBytes method apiPath appId appSecret).xTimestamp
        = toString (nowMs / 1000)
    ∧ (generateAuthHeaders hmacSha256Hex nowMs nonceBytes method apiPath appId appSecret).xNonce
        = bytesToHex nonceBytes
    ∧ (generateAuthHeaders hmacSha256Hex nowMs nonceBytes method apiPath appId appSecret).xNonce.length
        = 32
    ∧ (∀ c ∈ (generateAuthHeaders hmacSha256Hex nowMs nonceBytes method apiPath appId appSecret).xNonce.data,
        c ∈ ("0123456789abcdef" : String).data)
    ∧ (generateAuthHeaders hmacSha256Hex nowMs nonceBytes method apiPath appId appSecret).authorization
        = "HMAC-SHA256 " ++ hmacSha256Hex appSecret
            (method ++ "\n" ++ apiPath ++ "\n" ++ toString (nowMs / 1000)
              ++ "\n" ++ bytesToHex nonceBytes ++ "\n" ++ appId) := by
  refine ⟨rfl, rfl, rfl, ?_, ?_, rfl⟩
  · show (bytesToHex nonceBytes).length = 32
    rw [bytesToHex_length, hlen]
  · exact bytesToHex_chars nonceBytes hbytes

/-- Witness for C8 at a concrete byte list, time and MAC function. -/
theorem generateAuthHeaders_spec_witness :
    (generateAuthHeaders (fun _ m => m) 1728000000123 (List.replicate 16 171)
      "POST" "/asr/volcengine_quick" "app-id" "app-secret").xNonce.length = 32 :=
  (generateAuthHeaders_spec (fun _ m => m) 1728000000123 (List.replicate 16 171)
    "POST" "/asr/volcengine_quick" "app-id" "app-secret"
    (by decide) (by decide)).2.2.2.1

lemma slash_not_mem_lastSegment (cs : List Char) : '/' ∉ lastSegment cs := by
  intro hmem
  unfold lastSegment at hmem
  rw [List.mem_reverse] at hmem
  have := List.mem_takeWhile_imp hmem
  simp at this

lemma slash_not_mem_posixBasename (p : String) : '/' ∉ (posixBasename p).data :=
  slash_not_mem_lastSegment p.data

lemma slash_not_mem_posixBasenameExt (p ext : String) :
    '/' ∉ (posixBasenameExt p ext).data := by
  intro hmem
  simp only [posixBasenameExt] at hmem
  split_ifs at hmem
  · simp at hmem
  · exact slash_not_mem_posixBasename p (List.mem_of_mem_take hmem)
  · exact slash_not_mem_posixBasename p hmem
  · exact slash_not_mem_posixBasename p hmem

/-- C9: the planner's output file name is the fixed branded prefix, then
the sanitized base name — the upload's path-free, extension-free
basename when an original name is supplied, a timestamp fallback
otherwise — then the `.mp4` extension. -/
theorem outputName_spec (orig : Option String) (now : Nat) :
    outputName orig now
      = "pimsleur 日常英语对话-" ++ videoBaseName orig now ++ ".mp4"
    ∧ (∀ f : String, orig = some f → f ≠ "" →
        videoBaseName orig now = posixBasenameExt f (posixExtname f)
        ∧ '/' ∉ (videoBaseName orig now).data)
    ∧ ((orig = none ∨ orig = some "") →
        videoBaseName orig now = "video-" ++ toString now) := by
  refine ⟨rfl, ?_, ?_⟩
  · intro f hf hne
    subst hf
    have hbase : videoBaseName (some f) now = posixBasenameExt f (posixExtname f) := by
      simp [videoBaseName, hne]
    refine ⟨hbase, ?_⟩
    rw [hbase]
    exact slash_not_mem_posixBasenameExt f (posixExtname f)
  · rintro (h | h) <;> subst h
    · rfl
    · simp [videoBaseName]

/-- Witness for C9 at a concrete upload name with a directory part. -/
theorem outputName_spec_witness :
    videoBaseName (some "dir/lesson 1.mp3") 7
        = posixBasenameExt "dir/lesson 1.mp3" (posixExtname "dir/lesson 1.mp3")
    ∧ '/' ∉ (videoBaseName (some "dir/lesson 1.mp3") 7).data
    ∧ videoBaseName none 7 = "video-" ++ toString 7 :=
  ⟨((outputName_spec (some "dir/lesson 1.mp3") 7).2.1 "dir/lesson 1.mp3" rfl
      (by decide)).1,
    ((outputName_spec (some "dir/lesson 1.mp3") 7).2.1 "dir/lesson 1.mp3" rfl
      (by decide)).2,
    (outputName_spec none 7).2.2 (Or.inl rfl)⟩

/-- C2: the claim fails on the code — quote characters in derived
strings are NOT escaped.  At an image path containing a double quote the
planner embeds the path verbatim, so the command text contains the raw
quote (breaking the quoted argument: the command ends up with an odd
number, 9, of double-quote delimiters). -/
theorem planComposition_unescaped_quote :
    ('"' ∈ ("uploads/x\".png" : String).data)
    ∧ planComposition "uploads/x\".png" "uploads/a.mp3" "outputs/out.mp4"
        "9:16" false none ⟨none, none, none, none⟩
      = "ffmpeg -loop 1 -i \"uploads/x\".png\" -i \"uploads/a.mp3\" -vf \"scale=1080:1920:force_original_aspect_ratio=decrease,pad=1080:1920:(ow-iw)/2:(oh-ih)/2\" -c:v libx264 -tune stillimage -c:a aac -b:a 192k -pix_fmt yuv420p -shortest -y \"outputs/out.mp4\""
    ∧ ((planComposition "uploads/x\".png" "uploads/a.mp3" "outputs/out.mp4"
        "9:16" false none ⟨none, none, none, none⟩).data.filter
          (fun c => c = '"')).length = 9 := by
  refine ⟨by decide, ?_, ?_⟩ <;> decide

lemma floorLog2_spec (q : ℚ) (hq : 0 < q) :
    (2 : ℚ) ^ floorLog2 q ≤ q ∧ q < (2 : ℚ) ^ (floorLog2 q + 1) := by
  simp only [floorLog2]
  set a := q.num.toNat with ha
  set b := q.den with hb
  set e0 : ℤ := (Nat.log2 a : ℤ) - (Nat.log2 b : ℤ) with he0
  have hnum : (0 : ℤ) < q.num := Rat.num_pos.2 hq
  have ha0 : a ≠ 0 := by rw [ha]; omega
  have hb0 : b ≠ 0 := q.den_nz
  have haQ : ((a : ℚ)) = (q.num : ℚ) := by
    rw [ha]
    exact_mod_cast congrArg (fun z : ℤ => (z : ℚ)) (Int.toNat_of_nonneg hnum.le)
  have hq_eq : q = (a : ℚ) / (b : ℚ) := by
    rw [haQ, hb]
    exact (Rat.num_div_den q).symm
  have hbQ : (0 : ℚ) < (b : ℚ) := by exact_mod_cast Nat.pos_of_ne_zero hb0
  have h2aQ : (2 : ℚ) ^ (Nat.log2 a : ℤ) ≤ (a : ℚ) := by
    rw [zpow_natCast]
    exact_mod_cast Nat.log2_self_le ha0
  have h2aQ' : (a : ℚ) < (2 : ℚ) ^ ((Nat.log2 a : ℤ) + 1) := by
    have hcast : ((Nat.log2 a : ℤ) + 1) = ((Nat.log2 a + 1 : ℕ) : ℤ) := by push_cast; ring
    rw [hcast, zpow_natCast]
    exact_mod_cast Nat.lt_log2_self
  have h2bQ : (2 : ℚ) ^ (Nat.log2 b : ℤ) ≤ (b : ℚ) := by
    rw [zpow_natCast]
    exact_mod_cast Nat.log2_self_le hb0
  have h2bQ' : (b : ℚ) < (2 : ℚ) ^ ((Nat.log2 b : ℤ) + 1) := by
    have hcast : ((Nat.log2 b : ℤ) + 1) = ((Nat.log2 b + 1 : ℕ) : ℤ) := by push_cast; ring
    rw [hcast, zpow_natCast]
    exact_mod_cast Nat.lt_log2_self
  have hupper : q < (2 : ℚ) ^ (e0 + 1) := by
    rw [hq_eq, div_lt_iff₀ hbQ]
    calc (a : ℚ) < 2 ^ ((Nat.log2 a : ℤ) + 1) := h2aQ'
      _ = 2 ^ (e0 + 1) * 2 ^ (Nat.log2 b : ℤ) := by
          rw [← zpow_add₀ (two_ne_zero : (2 : ℚ) ≠ 0)]
          congr 1
          omega
      _ ≤ 2 ^ (e0 + 1) * b := by
          exact mul_le_mul_of_nonneg_left h2bQ (zpow_pos two_pos _).le
  have hlower : (2 : ℚ) ^ (e0 - 1) ≤ q := by
    rw [hq_eq, le_div_iff₀ hbQ]
    calc (2 : ℚ) ^ (e0 - 1) * (b : ℚ)
        ≤ 2 ^ (e0 - 1) * 2 ^ ((Nat.log2 b : ℤ) + 1) := by
          exact mul_le_mul_of_nonneg_left h2bQ'.le (zpow_pos two_pos _).le
      _ = 2 ^ (Nat.log2 a : ℤ) := by
          rw [← zpow_add₀ (two_ne_zero : (2 : ℚ) ≠ 0)]
          congr 1
          omega
      _ ≤ a := h2aQ
  split_ifs with hc
  · exact ⟨hc, hupper⟩
  · push_neg at hc
    refine ⟨hlower, ?_⟩
    have he : e0 - 1 + 1 = e0 := by ring
    rw [he]
    exact hc

lemma floorLog2_eq (q : ℚ) (e : ℤ) (h1 : (2 : ℚ) ^ e ≤ q)
    (h2 : q < (2 : ℚ) ^ (e + 1)) : floorLog2 q = e := by
  have hq : 0 < q := lt_of_lt_of_le (zpow_pos two_pos e) h1
  obtain ⟨hle, hlt⟩ := floorLog2_spec q hq
  by_contra hne
  rcases lt_or_gt_of_ne hne with hlt2 | hgt
  · have : (2 : ℚ) ^ (floorLog2 q + 1) ≤ 2 ^ e :=
      zpow_le_zpow_right₀ one_le_two (by omega)
    linarith
  · have : (2 : ℚ) ^ (e + 1) ≤ 2 ^ floorLog2 q :=
      zpow_le_zpow_right₀ one_le_two (by omega)
    linarith

lemma roundB64_of_pos (x : ℚ) (hx : 0 < x) : roundB64 x = roundB64pos x := by
  rw [roundB64, if_neg (ne_of_gt hx), if_pos hx]

lemma roundB64pos_round_down (x : ℚ) (e mfl : ℤ)
    (h1 : (2 : ℚ) ^ e ≤ x) (h2 : x < (2 : ℚ) ^ (e + 1))
    (hm : ⌊x / (2 : ℚ) ^ (e - 52)⌋ = mfl)
    (hfrac : x / (2 : ℚ) ^ (e - 52) - (mfl : ℚ) < 1 / 2) :
    roundB64pos x = (mfl : ℚ) * (2 : ℚ) ^ (e - 52) := by
  have hfl : floorLog2 x = e := floorLog2_eq x e h1 h2
  simp only [roundB64pos, hfl, hm]
  rw [if_pos hfrac]

lemma roundB64_natCast (m : ℕ) (hm : m < 2 ^ 53) : roundB64 (m : ℚ) = m := by
  rcases Nat.eq_zero_or_pos m with h0 | hpos
  · subst h0
    simp [roundB64]
  · have hx : (0 : ℚ) < (m : ℚ) := by exact_mod_cast hpos
    obtain ⟨hle, hlt⟩ := floorLog2_spec (m : ℚ) hx
    set e := floorLog2 (m : ℚ) with he
    have he52 : e ≤ 52 := by
      by_contra hgt
      push_neg at hgt
      have h53 : (2 : ℚ) ^ (53 : ℤ) ≤ 2 ^ e :=
        zpow_le_zpow_right₀ one_le_two (by omega)
      have hm53 : ((m : ℚ)) < (2 : ℚ) ^ (53 : ℤ) := by
        rw [show ((53 : ℤ)) = ((53 : ℕ) : ℤ) from rfl, zpow_natCast]
        exact_mod_cast hm
      linarith
    set k : ℕ := (52 - e).toNat with hk
    have hk' : (k : ℤ) = 52 - e := by rw [hk]; omega
    have h2k : ((2 ^ k : ℕ) : ℚ) ≠ 0 := by positivity
    have hscale : (2 : ℚ) ^ (e - 52) = ((2 ^ k : ℕ) : ℚ)⁻¹ := by
      have hneg : e - 52 = -(k : ℤ) := by omega
      rw [hneg, zpow_neg, zpow_natCast]
      norm_cast
    have hquot : ((m : ℚ)) / (2 : ℚ) ^ (e - 52) = ((m * 2 ^ k : ℕ) : ℚ) := by
      rw [hscale, div_eq_mul_inv, inv_inv]
      push_cast
      ring
    have hfloor : ⌊((m : ℚ)) / (2 : ℚ) ^ (e - 52)⌋ = ((m * 2 ^ k : ℕ) : ℤ) := by
      rw [hquot, Int.floor_natCast]
    have hdrv := roundB64pos_round_down (m : ℚ) e ((m * 2 ^ k : ℕ) : ℤ) hle hlt hfloor
      (by rw [hquot]; push_cast; norm_num)
    rw [roundB64_of_pos _ hx, hdrv, hscale]
    push_cast
    field_simp

lemma jsDiv_15000_7 :
    jsDiv 15000 7 = 4712192690468571 / 2199023255552 := by
  have hx : (0 : ℚ) < 15000 / 7 := by norm_num
  have hdrv := roundB64pos_round_down ((15000 : ℚ) / 7) 11 4712192690468571
    (by norm_num) (by norm_num)
    (by rw [Int.floor_eq_iff]; constructor <;> norm_num)
    (by norm_num)
  rw [jsDiv, roundB64_of_pos _ hx, hdrv]
  norm_num

lemma jsMul_7_avg :
    jsMul 7 (4712192690468571 / 2199023255552)
      = 8246337208319999 / 549755813888 := by
  have hx : (0 : ℚ) < 7 * (4712192690468571 / 2199023255552) := by norm_num
  have hdrv := roundB64pos_round_down
    ((7 : ℚ) * (4712192690468571 / 2199023255552)) 13 8246337208319999
    (by norm_num) (by norm_num)
    (by rw [Int.floor_eq_iff]; constructor <;> norm_num)
    (by norm_num)
  rw [jsMul, roundB64_of_pos _ hx, hdrv]
  norm_num

lemma allocUtterances_getElem? (D : ℚ) (lines : List String) (i : Nat) :
    (allocUtterances D lines)[i]?
      = (lines[i]?).map fun t =>
          ({ start_time := ⌊jsMul (i : ℚ) (jsDiv D (lines.length : ℚ))⌋
             end_time := ⌊jsMul ((i : ℚ) + 1) (jsDiv D (lines.length : ℚ))⌋
             text := jsTrim t } : Utterance) := by
  cases h : lines[i]? with
  | none =>
    have : lines.length ≤ i := by
      by_contra hlt
      rw [List.getElem?_eq_getElem (by omega)] at h
      exact Option.noConfusion h
    simp [allocUtterances, List.getElem?_enum, h]
  | some t =>
    simp [allocUtterances, List.getElem?_enum, h]

lemma allocUtterances_length (D : ℚ) (lines : List String) :
    (allocUtterances D lines).length = lines.length := by
  simp [allocUtterances]

/-- C1 counterexample: at total duration `D = 15000` ms and 7 lines the
last cue of the program's allocation ends at 14999 — not at `D`, as the
claim (exact `⌊(i+1)·D/n⌋` slices ending at `D`) would require: the
binary64 quotient `15000/7` rounds below the true rational, so
`Math.floor(7 * avgDuration) = 14999`. -/
theorem alignSubtitle_uniform_alloc_cex :
    ((allocUtterances ((15000 : Nat) : ℚ)
        ["a", "b", "c", "d", "e", "f", "g"]).map Utterance.end_time).getLast?
      = some 14999
    ∧ ((allocUtterances ((15000 : Nat) : ℚ)
        ["a", "b", "c", "d", "e", "f", "g"]).map Utterance.end_time).getLast?
      ≠ some ((15000 : Nat) : Int) := by
  have hget : ((allocUtterances ((15000 : Nat) : ℚ)
      ["a", "b", "c", "d", "e", "f", "g"]).map Utterance.end_time).getLast?
      = some ⌊jsMul ((6 : ℚ) + 1)
          (jsDiv ((15000 : Nat) : ℚ) (((7 : Nat) : ℚ)))⌋ := by
    rw [List.getLast?_eq_getElem?, List.length_map, allocUtterances_length]
    rw [show (["a", "b", "c", "d", "e", "f", "g"] : List String).length = 7
      from rfl]
    rw [List.getElem?_map, allocUtterances_getElem?]
    rfl
  have hval : ⌊jsMul ((6 : ℚ) + 1)
      (jsDiv ((15000 : Nat) : ℚ) (((7 : Nat) : ℚ)))⌋ = 14999 := by
    have h1 : ((6 : ℚ) + 1) = 7 := by norm_num
    have h2 : ((15000 : Nat) : ℚ) = (15000 : ℚ) := by norm_num
    have h3 : (((7 : Nat) : ℚ)) = (7 : ℚ) := by norm_num
    rw [h1, h2, h3, jsDiv_15000_7, jsMul_7_avg]
    rw [Int.floor_eq_iff]
    constructor <;> norm_num
  refine ⟨by rw [hget, hval], ?_⟩
  rw [hget, hval]
  intro hcontra
  have : (14999 : ℤ) = ((15000 : Nat) : Int) := Option.some.inj hcontra
  norm_num at this

/-- C1 as amended: line `i` (0-based, `n` lines, duration `D` ms) gets
start `⌊i ⊗ a⌋` and end `⌊(i+1) ⊗ a⌋` where `a` is the binary64 quotient
`D/n` and `⊗` binary64 multiplication; the first cue's start is 0; the
last cue's end is `⌊n ⊗ a⌋`, and it equals `D` exactly whenever `n`
divides `D` (for `D < 2^53`) — but not in general (see the
counterexample at `D = 15000`, `n = 7`). -/
theorem alignSubtitle_uniform_alloc_fp (lines : List String) (D : Nat)
    (hn : lines ≠ []) :
    (∀ i, i < lines.length →
        ((allocUtterances (D : ℚ) lines).map Utterance.start_time)[i]?
          = some ⌊jsMul (i : ℚ) (jsDiv (D : ℚ) (lines.length : ℚ))⌋
      ∧ ((allocUtterances (D : ℚ) lines).map Utterance.end_time)[i]?
          = some ⌊jsMul ((i : ℚ) + 1) (jsDiv (D : ℚ) (lines.length : ℚ))⌋)
    ∧ ((allocUtterances (D : ℚ) lines).map Utterance.start_time).head?
        = some 0
    ∧ ((allocUtterances (D : ℚ) lines).map Utterance.end_time).getLast?
        = some ⌊jsMul (lines.length : ℚ) (jsDiv (D : ℚ) (lines.length : ℚ))⌋
    ∧ (lines.length ∣ D → D < 2 ^ 53 →
        ((allocUtterances (D : ℚ) lines).map Utterance.end_time).getLast?
          = some ((D : Nat) : Int)) := by
  have hlen : 0 < lines.length := List.length_pos.2 hn
  have hpt : ∀ i, i < lines.length →
      ((allocUtterances (D : ℚ) lines).map Utterance.start_time)[i]?
        = some ⌊jsMul (i : ℚ) (jsDiv (D : ℚ) (lines.length : ℚ))⌋
      ∧ ((allocUtterances (D : ℚ) lines).map Utterance.end_time)[i]?
        = some ⌊jsMul ((i : ℚ) + 1) (jsDiv (D : ℚ) (lines.length : ℚ))⌋ := by
    intro i hi
    have ht : lines[i]? = some lines[i] := List.getElem?_eq_getElem hi
    constructor
    · rw [List.getElem?_map, allocUtterances_getElem?, ht]
      rfl
    · rw [List.getElem?_map, allocUtterances_getElem?, ht]
      rfl
  have hc1 : ((lines.length - 1 : ℕ) : ℚ) + 1 = (lines.length : ℚ) := by
    push_cast [Nat.cast_sub (by omega : 1 ≤ lines.length)]
    ring
  have hlast : ((allocUtterances (D : ℚ) lines).map Utterance.end_time).getLast?
      = some ⌊jsMul (lines.length : ℚ) (jsDiv (D : ℚ) (lines.length : ℚ))⌋ := by
    rw [List.getLast?_eq_getElem?, List.length_map, allocUtterances_length]
    rw [(hpt (lines.length - 1) (by omega)).2, hc1]
  refine ⟨hpt, ?_, hlast, ?_⟩
  · rw [List.head?_eq_getElem?, (hpt 0 hlen).1]
    have h0 : jsMul ((0 : ℕ) : ℚ) (jsDiv (D : ℚ) (lines.length : ℚ)) = 0 := by
      rw [jsMul]
      norm_num [roundB64]
    rw [h0]
    norm_num
  · intro hdvd hD53
    obtain ⟨q, hq⟩ := hdvd
    have hn0 : (lines.length : ℚ) ≠ 0 := Nat.cast_ne_zero.2 (by omega)
    have hcast : (D : ℚ) / (lines.length : ℚ) = (q : ℚ) := by
      subst hq
      push_cast
      field_simp
    have hqD : q ≤ D := by
      subst hq
      exact Nat.le_mul_of_pos_left q hlen
    have havg : jsDiv (D : ℚ) (lines.length : ℚ) = (q : ℚ) := by
      rw [jsDiv, hcast, roundB64_natCast q (lt_of_le_of_lt hqD hD53)]
    have hprod : ((lines.length : ℚ)) * (q : ℚ) = ((D : ℕ) : ℚ) := by
      subst hq
      push_cast
      ring
    rw [hlast, havg, jsMul, hprod, roundB64_natCast D hD53, Int.floor_natCast]

/-- Witness for the amended C1 at two lines and a 4000 ms duration,
where the quotient is exactly representable and the last cue ends at
`D`. -/
theorem alignSubtitle_uniform_alloc_fp_witness :
    ((allocUtterances ((4000 : Nat) : ℚ) ["Hello", "World"]).map
        Utterance.start_time).head? = some 0
    ∧ ((allocUtterances ((4000 : Nat) : ℚ) ["Hello", "World"]).map
        Utterance.end_time).getLast? = some ((4000 : Nat) : Int) := by
  have h := alignSubtitle_uniform_alloc_fp ["Hello", "World"] 4000 (by decide)
  exact ⟨h.2.1, h.2.2.2 (by decide) (by norm_num)⟩

end Audio2Video
